import Mathlib

/-!
# Task tracker CLI: a shallow embedding of `main.go`

The Go program keeps a slice of `Task` records sorted by `Id`, looks tasks up
by binary search, mutates the slice in place and persists it as JSON.

Modelling conventions:

* a Go slice `[]Task` is a `List Task`; in-place mutation is returned as the
  new contents of the slice;
* Go `int` is taken at its 64-bit width: values are `Int`s in
  `[minInt, maxInt]` and `+` wraps modulo `2 ^ 64`;
* a Go `string` is a sequence of bytes, valid UTF-8 or not; a string literal
  written where a Go string is expected stands for its UTF-8 bytes;
* `time.Time` is an instant, an `Int`; `time.Now()` is an explicit argument;
* `os.Exit`, standard output and the storage file are explicit state; each
  `bufio.Scanner` on standard input is given by the texts it yields.
-/

namespace TaskTracker

/-! ## Data model -/

/-- Go `string`: a sequence of bytes, not necessarily valid UTF-8. -/
abbrev GoString := List UInt8

/-- Bytes of a string literal of the source, which Go stores in UTF-8. -/
def str (s : String) : GoString := s.toList.flatMap String.utf8EncodeChar

instance : Coe String GoString := ⟨str⟩

/-- Go `type Status int`. -/
abbrev Status := Int

/-- First constant of the `iota` block. -/
def todo : Status := 0

/-- Second constant of the `iota` block. -/
def inprogress : Status := 1

/-- Third constant of the `iota` block. -/
def done : Status := 2

/-- Instants of `time.Time`, ordered as by `Time.Before`/`Time.After`. -/
abbrev Time := Int

/-- Go `type Task struct`. -/
structure Task where
  Id : Int
  Description : GoString
  Status : Status
  CreatedAt : Time
  UpdatedAt : Time
  deriving DecidableEq, Repr

/-- Zero value `Task{}`. -/
instance : Inhabited Task := ⟨⟨0, [], 0, 0, 0⟩⟩

/-- Largest value of a 64-bit Go `int`. -/
def maxInt : Int := 2 ^ 63 - 1

/-- Smallest value of a 64-bit Go `int`. -/
def minInt : Int := -(2 ^ 63)

/-- Two's-complement wrap-around of a mathematical integer into the 64-bit `int` range. -/
def wrapInt (x : Int) : Int := (x + 2 ^ 63) % 2 ^ 64 - 2 ^ 63

/-- The collection invariant of the spec: strictly increasing by `Id`. -/
def StrictById (ts : List Task) : Prop := ts.Pairwise (fun a b => a.Id < b.Id)

instance (ts : List Task) : Decidable (StrictById ts) := by unfold StrictById; infer_instance

/-- Ascending by `Id`, duplicates allowed: what `sort.Slice` establishes. -/
def SortedById (ts : List Task) : Prop := ts.Pairwise (fun a b => a.Id ≤ b.Id)

instance (ts : List Task) : Decidable (SortedById ts) := by unfold SortedById; infer_instance

/-! ## Lookup -/

/-- Go `cmp.Compare` on `int`. -/
def cmpCompare (x y : Int) : Int := if x < y then -1 else if x > y then 1 else 0

/-- The `for i < j` loop of `slices.BinarySearchFunc` with the comparison of
`findTaskIndex` (`cmp.Compare(a.Id, b.Id)` against `Task{Id: id}`). Each turn
shrinks `j - i`, so `fuel ≥ j - i` turns are enough. The index `h` read lies in
`[i, j)`, inside the slice, so the default of `getD` is never what is read. -/
def binarySearchLoop (ts : List Task) (id : Int) : Nat → Nat → Nat → Nat
  | 0, i, _ => i
  | fuel + 1, i, j =>
    if i < j then
      let h := (i + j) / 2
      if cmpCompare (ts.getD h default).Id id < 0 then
        binarySearchLoop ts id fuel (h + 1) j
      else
        binarySearchLoop ts id fuel i h
    else i

/-- Go `findTaskIndex`: `slices.BinarySearchFunc` by `Id`; returns the position
and whether the element there has the wanted `Id` (`i < n && cmp(x[i], target) == 0`). -/
def findTaskIndex (ts : List Task) (id : Int) : Nat × Bool :=
  let n := ts.length
  let i := binarySearchLoop ts id n 0 n
  (i, decide (i < n) && decide (cmpCompare (ts.getD i default).Id id = 0))

/-! ## Repository operations -/

/-- The error value `errors.New("Task index not found")`. -/
def errNotFound : String := "Task index not found"

/-- Go `updateTaskDescription`: returns the contents of `ts` after the call and
the error (`none` for `nil`). `now` is the value of `time.Now()`. -/
def updateTaskDescription (ts : List Task) (id : Int) (desc : GoString) (now : Time) :
    List Task × Option String :=
  match findTaskIndex ts id with
  | (index, true) =>
    let t := ts.getD index default
    (ts.set index { t with Description := desc, UpdatedAt := now }, none)
  | (_, false) => (ts, some errNotFound)

/-- Go `updateTaskStatus`: returns the contents of `ts` after the call and the
error (`none` for `nil`). `now` is the value of `time.Now()`. -/
def updateTaskStatus (ts : List Task) (id : Int) (status : Status) (now : Time) :
    List Task × Option String :=
  match findTaskIndex ts id with
  | (index, true) =>
    let t := ts.getD index default
    (ts.set index { t with Status := status, UpdatedAt := now }, none)
  | (_, false) => (ts, some errNotFound)

/-- Go `slices.Delete(s, i, j)`: the returned slice, `s[:i]` followed by `s[j:]`. -/
def slicesDelete (s : List Task) (i j : Nat) : List Task := s.take i ++ s.drop j

/-- Go `deleteTaskById`: the error path returns before anything is written to
`ts`; the success path returns the slice produced by `slices.Delete`. -/
def deleteTaskById (ts : List Task) (id : Int) : Except String (List Task) :=
  match findTaskIndex ts id with
  | (index, true) => .ok (slicesDelete ts index (index + 1))
  | (_, false) => .error errNotFound

/-- The `add` case of `main` after the name is known: id allocation and append.
`now₁`, `now₂` are the two `time.Now()` readings of the struct literal. -/
def addTask (tasks : List Task) (name : GoString) (now₁ now₂ : Time) : List Task :=
  let maxId : Int :=
    if tasks.length > 0 then wrapInt ((tasks.getD (tasks.length - 1) default).Id + 1) else 1
  tasks ++ [⟨maxId, name, todo, now₁, now₂⟩]

/-! ## What `encoding/json` does to a string -/

/-- For a first byte that announces an encoding of two to four bytes: the
length of the encoding and the range its second byte has to lie in, after the
tables `first` and `acceptRanges` of `unicode/utf8`. -/
def leadInfo (b : UInt8) : Option (Nat × UInt8 × UInt8) :=
  if 0xC2 ≤ b ∧ b ≤ 0xDF then some (2, 0x80, 0xBF)
  else if b = 0xE0 then some (3, 0xA0, 0xBF)
  else if b = 0xED then some (3, 0x80, 0x9F)
  else if 0xE1 ≤ b ∧ b ≤ 0xEF then some (3, 0x80, 0xBF)
  else if b = 0xF0 then some (4, 0x90, 0xBF)
  else if 0xF1 ≤ b ∧ b ≤ 0xF3 then some (4, 0x80, 0xBF)
  else if b = 0xF4 then some (4, 0x80, 0x8F)
  else none

/-- Continuation bytes `0x80 .. 0xBF`. -/
def isContinuation (b : UInt8) : Bool := decide (0x80 ≤ b ∧ b ≤ 0xBF)

/-- Width of the rune `utf8.DecodeRuneInString` finds at the head of `s`: 1 to
4 for a valid encoding, 0 when it reports `RuneError` with width 1, that is when
the first byte starts no valid encoding (or `s` is empty). -/
def runeWidth (s : GoString) : Nat :=
  match s with
  | [] => 0
  | b :: rest =>
    if b < 0x80 then 1
    else
      match leadInfo b with
      | none => 0
      | some (n, lo, hi) =>
        match rest with
        | [] => 0
        | b₁ :: more =>
          if lo ≤ b₁ ∧ b₁ ≤ hi ∧ n - 2 ≤ more.length ∧ (more.take (n - 2)).all isContinuation
          then n else 0

/-- What a string is after `json.Marshal` and `json.Unmarshal`: the encoder
writes every byte that starts no valid UTF-8 encoding as the replacement
character U+FFFD (bytes `EF BF BD`) and everything else in a form the decoder
gives back unchanged. `skip` counts the bytes still to copy of the rune
being read. -/
def coerceUTF8Aux : Nat → GoString → GoString
  | _, [] => []
  | skip + 1, b :: rest => b :: coerceUTF8Aux skip rest
  | 0, b :: rest =>
    match runeWidth (b :: rest) with
    | 0 => 0xEF :: 0xBF :: 0xBD :: coerceUTF8Aux 0 rest
    | n + 1 => b :: coerceUTF8Aux n rest

/-- A string as it comes back from the JSON file. -/
def coerceUTF8 (s : GoString) : GoString := coerceUTF8Aux 0 s

/-- Valid UTF-8: the strings JSON stores unchanged (Go `utf8.ValidString`). -/
def ValidUTF8 (s : GoString) : Prop := coerceUTF8 s = s

instance (s : GoString) : Decidable (ValidUTF8 s) := by unfold ValidUTF8; infer_instance

/-! ## Store -/

/-- The standard-library functions the store calls, over an abstract type
`Bytes` of file contents: `json.Marshal` on `[]Task` (taken as succeeding, as it
does for every time value the program can hold), `json.Unmarshal` into `[]Task`,
and `sort.Slice` with `less := tasks[i].Id < tasks[j].Id`. -/
structure Lib (Bytes : Type) where
  marshal : List Task → Bytes
  unmarshal : Bytes → Except String (List Task)
  sortById : List Task → List Task

/-- The fields of a task the round-trip property speaks about. -/
def Task.key (t : Task) : Int × GoString × TaskTracker.Status :=
  (t.Id, t.Description, t.Status)

/-- A task with its description as the JSON file gives it back. -/
def Task.stored (t : Task) : Task := { t with Description := coerceUTF8 t.Description }

/-- The same fields as the JSON file gives them back: the description coerced
to valid UTF-8. -/
def Task.storedKey (t : Task) : Int × GoString × TaskTracker.Status :=
  (t.Id, coerceUTF8 t.Description, t.Status)

/-- Contract of the library functions: decoding what was encoded succeeds and
gives back, task by task, the same `Id` and `Status` and the `Description`
coerced to valid UTF-8; sorting returns an ascending permutation (`sort.Slice`
is not stable, so nothing more). -/
structure Lib.Lawful {Bytes : Type} (lib : Lib Bytes) : Prop where
  roundtrip : ∀ ts, ∃ ts', lib.unmarshal (lib.marshal ts) = .ok ts' ∧
    ts'.map Task.key = ts.map Task.storedKey
  sort_perm : ∀ ts, (lib.sortById ts).Perm ts
  sort_sorted : ∀ ts, SortedById (lib.sortById ts)

/-- The storage file `tasks.json` as the process sees it. -/
structure Storage (Bytes : Type) where
  /-- Contents of the file, `none` when it does not exist. -/
  data : Option Bytes
  /-- Error `os.ReadFile` returns on the existing file, if any. -/
  readErr : Option String
  /-- Error `os.OpenFile(path, O_TRUNC|O_WRONLY, _)` returns on the existing file, if any. -/
  openErr : Option String

/-- Error text of opening a file that does not exist. -/
def errNotExist : String := "open tasks.json: no such file or directory"

/-- Go `getTasks`: a missing file is the empty collection; a read or decode
error is returned; a decoded collection is sorted by `Id`. -/
def getTasks {Bytes : Type} (lib : Lib Bytes) (st : Storage Bytes) : Except String (List Task) :=
  match st.data with
  | none => .ok []
  | some b =>
    match st.readErr with
    | some e => .error e
    | none =>
      match lib.unmarshal b with
      | .error e => .error e
      | .ok tasks => .ok (lib.sortById tasks)

/-- Go `saveTasks`: `.error e` stands for `check(err)` printing `e` and exiting
with status 1; `.ok st` is the storage after the write. The file is opened
without `O_CREATE`, so it has to exist. The result of `f.Write` is not looked
at by the code; the write is taken to store all of the encoding. -/
def saveTasks {Bytes : Type} (lib : Lib Bytes) (st : Storage Bytes) (ts : List Task) :
    Except String (Storage Bytes) :=
  match st.data with
  | none => .error errNotExist
  | some _ =>
    match st.openErr with
    | some e => .error e
    | none => .ok { st with data := some (lib.marshal ts) }

/-! ## Numbers on the command line -/

/-- The two errors of `strconv`: `ErrSyntax` and `ErrRange`. -/
inductive NumError where
  | invalid
  | outOfRange
  deriving DecidableEq, Repr

/-- Largest `uint64`. -/
def maxUint64 : Nat := 2 ^ 64 - 1

/-- Decimal digits `'0' .. '9'`. -/
def isDigit (c : UInt8) : Bool := decide (48 ≤ c.toNat ∧ c.toNat ≤ 57)

/-- The loop of `strconv.ParseUint` for base 10 and 64 bits, from left to
right: a byte that is no digit is a syntax error with value 0, and an overflow
is reported, with the largest value, at the digit where it happens, before the
bytes after it are looked at. -/
def parseUintLoop : GoString → Nat → Nat × Option NumError
  | [], n => (n, none)
  | c :: rest, n =>
    if isDigit c then
      if n ≥ maxUint64 / 10 + 1 then (maxUint64, some .outOfRange)
      else if n * 10 + (c.toNat - 48) > maxUint64 then (maxUint64, some .outOfRange)
      else parseUintLoop rest (n * 10 + (c.toNat - 48))
    else (0, some .invalid)

/-- Go `strconv.ParseUint(s, 10, 64)`. -/
def parseUint (s : GoString) : Nat × Option NumError :=
  if s = [] then (0, some .invalid) else parseUintLoop s 0

/-- Go `strconv.ParseInt(s, 10, 0)` on a 64-bit platform: sign, `ParseUint`,
then the range test, which turns an overflow into the nearest bound. -/
def parseInt (s : GoString) : Int × Option NumError :=
  match s with
  | [] => (0, some .invalid)
  | c :: rest =>
    let neg : Bool := decide (c = 45)
    let digits : GoString := if c = 43 ∨ c = 45 then rest else s
    match parseUint digits with
    | (_, some .invalid) => (0, some .invalid)
    | (un, _) =>
      if neg = false ∧ un ≥ 2 ^ 63 then (maxInt, some .outOfRange)
      else if neg = true ∧ un > 2 ^ 63 then (minInt, some .outOfRange)
      else (if neg then -(un : Int) else (un : Int), none)

/-- The loop of the fast path of `strconv.Atoi`: `none` at a byte that is no digit. -/
def atoiFastLoop : GoString → Nat → Option Nat
  | [], n => some n
  | ch :: rest, n => if isDigit ch then atoiFastLoop rest (n * 10 + (ch.toNat - 48)) else none

/-- Go `strconv.Atoi` on a 64-bit platform, as the returned `int` and error:
the fast path for 1 to 18 bytes, `ParseInt` otherwise. -/
def atoi (s : GoString) : Int × Option NumError :=
  if 0 < s.length ∧ s.length < 19 then
    let digits : GoString := if s.head? = some 45 ∨ s.head? = some 43 then s.tail else s
    if digits.length < 1 then (0, some .invalid)
    else
      match atoiFastLoop digits 0 with
      | none => (0, some .invalid)
      | some n => (if s.head? = some 45 then -(n : Int) else (n : Int), none)
  else parseInt s

/-! ## Command-line arguments and prompts -/

/-- What the process prints: a text, or the line `list` prints for a task, kept
as the operands of its `fmt.Println` (the two times unformatted). -/
inductive Output where
  | text (s : String)
  | taskLine (id : Int) (description : GoString) (status : String) (createdAt updatedAt : Time)
  deriving DecidableEq, Repr

/-- Outcome of an argument helper: it returns a value, or it ends the process
through `os.Exit`, or it never returns. -/
inductive Input (α : Type) where
  | value (a : α) (out : List Output)
  | exit (code : Nat) (out : List Output)
  | hang (out : List Output)
  deriving DecidableEq, Repr

/-- Go `getStringArg`, always called with `args = os.Args`: prompts when the
argument is missing, `q` quits with status 0. `texts` lists what the new
`bufio.Scanner` gives as `Text()` after each `Scan()`, whose result the code
does not look at; when the list is used up `Text()` is empty. Indexing a
missing `os.Args[pos]` is a run-time panic, exit status 2. -/
def getStringArg (osArgs : List GoString) (pos : Nat) (message : String)
    (texts : List GoString) : Input GoString :=
  if osArgs.length ≤ pos ∧ message ≠ "" then
    let arg : GoString := texts.headD []
    if arg = "q" then .exit 0 [.text message] else .value arg [.text message]
  else
    match osArgs[pos]? with
    | some arg => .value arg []
    | none => .exit 2 []

/-- Text of the re-prompt of `getIntArg`. -/
def invalidIdMessage : String := "Invalid id, please enter again['q' for exit]:"

/-- The `for` loop of `getIntArg` over the texts of its scanner, one per
`Scan()`. When the list is used up `Text()` stays empty, `Atoi` fails on it,
and with `repeat` set the loop never ends. `id` is the value of the variable
`id` on entry. -/
def getIntArgLoop (rep : Bool) (id : Int) : List GoString → List Output → Input Int
  | [], out => if rep then .hang (out ++ [.text invalidIdMessage]) else .value id out
  | input :: rest, out =>
    if input = "q" then .exit 0 out
    else
      match atoi input with
      | (tmpId, none) => .value tmpId out
      | (_, some _) =>
        if !rep then .value id out
        else getIntArgLoop rep id rest (out ++ [.text invalidIdMessage])

/-- Go `getIntArg`. `parsed` is the outcome of `strconv.Atoi(args[pos])` when
the argument is present; the function returns at once when it succeeded. When
it failed, `id` keeps the value returned with the error and, the prompt being
for a missing argument only, that value is returned. `texts` is as in
`getStringArg`. -/
def getIntArg (args : List GoString) (pos : Nat) (message : String) (rep : Bool)
    (texts : List GoString) : Input Int :=
  let parsed : Int × Option NumError :=
    if args.length > pos then atoi (args.getD pos []) else (0, some .invalid)
  if args.length > pos ∧ parsed.2 = none then .value parsed.1 []
  else
    let id : Int := parsed.1
    if args.length ≤ pos ∧ message ≠ "" then
      getIntArgLoop rep id texts [.text message]
    else .value id []

/-! ## Command dispatcher -/

/-- The constant `helpMessage`. -/
def helpMessage : String :=
  "Available commands:\n" ++
  "\tadd [task name] -> create the new task\n" ++
  "\tupdate [task id] [new task name] -> update task name by id\n" ++
  "\tdelete [task id] -> delete task by id\n" ++
  "\tmark-in-progress [task id] -> change the task status to \"in progress\"\n" ++
  "\tmark-in-done [task id] -> change the task status to \"done\"\n" ++
  "\t*by default, tasks have the status \"todo\"*\n" ++
  "\tlist -> display tasks\n" ++
  "\tlist [todo|in-progress|done] -> display tasks with filtered by status\n"

/-- The map `strStatuses` of `main`; a missing key reads as the zero value. -/
def strStatuses (s : GoString) : Status :=
  if s = "todo" then todo
  else if s = "in-progress" then inprogress
  else if s = "done" then done
  else 0

/-- The map `statuses` of `main`; a missing key reads as the empty string. -/
def statuses (s : Status) : String :=
  if s = todo then "todo"
  else if s = inprogress then "in-progress"
  else if s = done then "done"
  else ""

/-- The line `list` prints for a task. -/
def printTask (task : Task) : Output :=
  .taskLine task.Id task.Description (statuses task.Status) task.CreatedAt task.UpdatedAt

/-- The `list` case of `main`: the tasks whose line is printed, in print order.
`args` is `os.Args[2:]`. -/
def listTasks (tasks : List Task) (args : List GoString) : List Task :=
  let status : Status := if args.length ≠ 0 then strStatuses (args.getD 0 []) else 0
  tasks.filter (fun task => !(decide (status ≠ 0) && decide (task.Status ≠ status)))

/-- Final state of a run of the program: what was printed, the exit status
(`none` when the run never ends) and the storage file. -/
structure Run (Bytes : Type) where
  out : List Output
  exit : Option Nat
  storage : Storage Bytes

/-- Text printed by `exitIfNotExists`. -/
def noTasksMessage : String := "No tasks, nothing to do"

/-- Go `exitIfNotExists`: `some (out, code)` when it ends the process, printing
`out` and exiting with status `code`. -/
def exitIfNotExists (ts : List Task) : Option (List Output × Nat) :=
  if ts.length = 0 then some ([.text noTasksMessage], 0) else none

/-- The tail of the mutating commands: `saveTasks` and the return from `main`. -/
def saveAndReturn {Bytes : Type} (lib : Lib Bytes) (st : Storage Bytes) (out : List Output)
    (tasks : List Task) : Run Bytes :=
  match saveTasks lib st tasks with
  | .ok st' => ⟨out, some 0, st'⟩
  | .error e => ⟨out ++ [.text e], some 1, st⟩

/-- Prompt of the `add` case. -/
def namePrompt : String := "Enter the task name:"

/-- Prompt for a task id. -/
def idPrompt : String := "Enter task id ['q' for exit]:"

/-- Prompt of the `update` case. -/
def descriptionPrompt : String := "Enter task description ['q' for exit]"

/-- Go `main`. `osArgs` is `os.Args`, `clock k` the value of the `k`-th call of
`time.Now()`, and `scans k` the texts of the `bufio.Scanner` that the `k`-th
argument helper of the run creates on standard input when it prompts. Each
helper makes a scanner of its own, and what a later one still finds on
standard input depends on how far the earlier one read ahead, so the texts of
the scanners are independent inputs. A `check(err)` with an error is the
branch that prints the error and exits with status 1; indexing `os.Args[1]`
of an empty `os.Args` is a run-time panic, exit status 2. -/
def main {Bytes : Type} (lib : Lib Bytes) (st : Storage Bytes) (osArgs : List GoString)
    (scans : Nat → List GoString) (clock : Nat → Time) : Run Bytes :=
  let loaded : List Task × List Output :=
    match getTasks lib st with
    | .ok tasks => (tasks, [])
    | .error e => ([], [.text ("Error: " ++ e)])
  let tasks := loaded.1
  let out := loaded.2
  match osArgs with
  | [] => ⟨out, some 2, st⟩
  | [_] => ⟨out ++ [.text helpMessage], some 0, st⟩
  | _ :: action :: args =>
    if action = "add" then
      match getStringArg osArgs 2 namePrompt (scans 0) with
      | .exit code o => ⟨out ++ o, some code, st⟩
      | .hang o => ⟨out ++ o, none, st⟩
      | .value name o => saveAndReturn lib st (out ++ o) (addTask tasks name (clock 0) (clock 1))
    else if action = "update" then
      match exitIfNotExists tasks with
      | some (o, code) => ⟨out ++ o, some code, st⟩
      | none =>
        match getIntArg osArgs 2 idPrompt true (scans 0) with
        | .exit code o => ⟨out ++ o, some code, st⟩
        | .hang o => ⟨out ++ o, none, st⟩
        | .value id o =>
          match getStringArg osArgs 3 descriptionPrompt (scans 1) with
          | .exit code o' => ⟨out ++ o ++ o', some code, st⟩
          | .hang o' => ⟨out ++ o ++ o', none, st⟩
          | .value description o' =>
            match updateTaskDescription tasks id description (clock 0) with
            | (_, some err) => ⟨out ++ o ++ o' ++ [.text err], some 1, st⟩
            | (tasks', none) => saveAndReturn lib st (out ++ o ++ o') tasks'
    else if action = "mark-in-progress" ∨ action = "mark-done" then
      match exitIfNotExists tasks with
      | some (o, code) => ⟨out ++ o, some code, st⟩
      | none =>
        match getIntArg osArgs 2 idPrompt true (scans 0) with
        | .exit code o => ⟨out ++ o, some code, st⟩
        | .hang o => ⟨out ++ o, none, st⟩
        | .value id o =>
          let status : Status := if action = "mark-done" then done else inprogress
          match updateTaskStatus tasks id status (clock 0) with
          | (_, some err) => ⟨out ++ o ++ [.text err], some 1, st⟩
          | (tasks', none) => saveAndReturn lib st (out ++ o) tasks'
    else if action = "delete" then
      match exitIfNotExists tasks with
      | some (o, code) => ⟨out ++ o, some code, st⟩
      | none =>
        match getIntArg osArgs 2 idPrompt true (scans 0) with
        | .exit code o => ⟨out ++ o, some code, st⟩
        | .hang o => ⟨out ++ o, none, st⟩
        | .value id o =>
          match deleteTaskById tasks id with
          | .error err => ⟨out ++ o ++ [.text err], some 1, st⟩
          | .ok tasks' => saveAndReturn lib st (out ++ o) tasks'
    else if action = "list" then
      ⟨out ++ (listTasks tasks args).map printTask, some 0, st⟩
    else if action = "help" then
      ⟨out ++ [.text helpMessage], some 0, st⟩
    else
      ⟨out ++ [.text "The command doesn't exists", .text helpMessage], some 1, st⟩

/-! ## A concrete library instance, used to evaluate runs -/

/-- File contents for evaluation: `some ts` is a JSON text that decodes to `ts`,
`none` is a text that does not decode as `[]Task`. -/
abbrev Doc := Option (List Task)

/-- A library instance over `Doc`: encoding coerces every description to valid
UTF-8, decoding gives the tasks of the text, and sorting is insertion sort by
`Id`. -/
def refLib : Lib Doc where
  marshal := fun ts => some (ts.map Task.stored)
  unmarshal := fun d =>
    match d with
    | some ts => .ok ts
    | none => .error "invalid character"
  sortById := fun ts => ts.insertionSort (fun a b => a.Id ≤ b.Id)

/-! ## Binary search: correctness of the lookup -/

theorem cmpCompare_neg_iff (x y : Int) : cmpCompare x y < 0 ↔ x < y := by
  unfold cmpCompare
  split_ifs <;> constructor <;> intro h <;> omega

theorem cmpCompare_eq_zero_iff (x y : Int) : cmpCompare x y = 0 ↔ x = y := by
  unfold cmpCompare
  by_cases h1 : x < y
  · simp only [h1, if_true]
    constructor <;> intro h <;> omega
  · by_cases h2 : x > y
    · simp only [h1, h2, if_true, if_false]
      constructor <;> intro h <;> omega
    · simp only [h1, h2, if_false]
      exact ⟨fun _ => by omega, fun _ => trivial⟩

theorem sortedById_getD_le {ts : List Task} (hs : SortedById ts) {a b : Nat}
    (hab : a ≤ b) (hb : b < ts.length) :
    (ts.getD a default).Id ≤ (ts.getD b default).Id := by
  rcases Nat.eq_or_lt_of_le hab with h | h
  · subst h; exact le_refl _
  · rw [List.getD_eq_getElem _ _ hb, List.getD_eq_getElem _ _ (by omega)]
    exact (List.pairwise_iff_getElem.mp hs) a b (by omega) hb h

theorem StrictById.sorted {ts : List Task} (hs : StrictById ts) : SortedById ts :=
  List.Pairwise.imp (fun h => le_of_lt h) hs

/-- Loop invariant of the binary search: everything left of the result is
smaller than `id`, everything from the result on is not. -/
theorem binarySearchLoop_spec {ts : List Task} (hs : SortedById ts) (id : Int) :
    ∀ (fuel i j : Nat), j - i ≤ fuel → i ≤ j → j ≤ ts.length →
      (∀ k, k < i → (ts.getD k default).Id < id) →
      (∀ k, j ≤ k → k < ts.length → ¬ (ts.getD k default).Id < id) →
      (∀ k, k < binarySearchLoop ts id fuel i j → (ts.getD k default).Id < id) ∧
      (∀ k, binarySearchLoop ts id fuel i j ≤ k → k < ts.length →
        ¬ (ts.getD k default).Id < id) ∧
      binarySearchLoop ts id fuel i j ≤ ts.length := by
  intro fuel
  induction fuel with
  | zero =>
    intro i j hf hij hj hlo hhi
    have : i = j := by omega
    subst this
    exact ⟨hlo, hhi, hj⟩
  | succ fuel ih =>
    intro i j hf hij hj hlo hhi
    unfold binarySearchLoop
    by_cases hlt : i < j
    · simp only [hlt, if_true]
      have hh : (i + j) / 2 < j := by omega
      have hh' : i ≤ (i + j) / 2 := by omega
      by_cases hc : cmpCompare (ts.getD ((i + j) / 2) default).Id id < 0
      · simp only [hc, if_true]
        rw [cmpCompare_neg_iff] at hc
        refine ih ((i + j) / 2 + 1) j (by omega) (by omega) hj ?_ hhi
        intro k hk
        exact lt_of_le_of_lt (sortedById_getD_le hs (by omega) (by omega)) hc
      · simp only [hc, if_false]
        rw [cmpCompare_neg_iff] at hc
        refine ih i ((i + j) / 2) (by omega) hh' (by omega) hlo ?_
        intro k hk hkn hlt'
        exact hc (lt_of_le_of_lt (sortedById_getD_le hs hk hkn) hlt')
    · simp only [hlt, if_false]
      have : i = j := by omega
      subst this
      exact ⟨hlo, hhi, hj⟩

/-- On a collection ascending by `Id`, the lookup reports `found` exactly when
some task carries the id. -/
theorem findTaskIndex_found_iff {ts : List Task} (hs : SortedById ts) (id : Int) :
    (findTaskIndex ts id).2 = true ↔ ∃ t ∈ ts, t.Id = id := by
  obtain ⟨hlo, hhi, _⟩ := binarySearchLoop_spec hs id ts.length 0 ts.length
    (by omega) (by omega) (le_refl _) (by intro k hk; omega) (by intro k hk hk'; omega)
  unfold findTaskIndex
  simp only [Bool.and_eq_true, decide_eq_true_eq, cmpCompare_eq_zero_iff]
  constructor
  · rintro ⟨hlt, heq⟩
    refine ⟨ts.getD (binarySearchLoop ts id ts.length 0 ts.length) default, ?_, heq⟩
    rw [List.getD_eq_getElem _ _ hlt]
    exact List.getElem_mem _
  · rintro ⟨t, ht, rfl⟩
    obtain ⟨k, hk, rfl⟩ := List.getElem_of_mem ht
    have hk' : ts.getD k default = ts[k] := List.getD_eq_getElem _ _ hk
    have hrk : binarySearchLoop ts ts[k].Id ts.length 0 ts.length ≤ k := by
      by_contra hcon
      have := hlo k (by omega)
      rw [hk'] at this
      exact lt_irrefl _ this
    refine ⟨by omega, le_antisymm ?_ ?_⟩
    · have := sortedById_getD_le hs hrk hk
      rwa [hk'] at this
    · exact not_lt.mp (hhi _ (le_refl _) (by omega))

/-- The lookup never reports `found` for an id that no task carries, sorted or not. -/
theorem findTaskIndex_absent (ts : List Task) (id : Int) (h : ∀ t ∈ ts, t.Id ≠ id) :
    (findTaskIndex ts id).2 = false := by
  unfold findTaskIndex
  by_contra hcon
  simp only [Bool.not_eq_false, Bool.and_eq_true, decide_eq_true_eq,
    cmpCompare_eq_zero_iff] at hcon
  obtain ⟨hlt, heq⟩ := hcon
  refine h _ ?_ heq
  rw [List.getD_eq_getElem _ _ hlt]
  exact List.getElem_mem _

/-- On a collection strictly increasing by `Id`, the lookup of the id of the
task at position `pre.length` returns that position. -/
theorem findTaskIndex_split {pre post : List Task} {t : Task}
    (hs : StrictById (pre ++ t :: post)) :
    findTaskIndex (pre ++ t :: post) t.Id = (pre.length, true) := by
  have hsorted := hs.sorted
  obtain ⟨hlo, hhi, hle⟩ := binarySearchLoop_spec hsorted t.Id (pre ++ t :: post).length 0
    (pre ++ t :: post).length (by omega) (by omega) (le_refl _)
    (by intro k hk; omega) (by intro k hk hk'; omega)
  have hlen : pre.length < (pre ++ t :: post).length := by simp
  have hat : (pre ++ t :: post).getD pre.length default = t := by
    rw [List.getD_eq_getElem _ _ hlen, List.getElem_append_right (le_refl _)]
    simp
  have hr : binarySearchLoop (pre ++ t :: post) t.Id (pre ++ t :: post).length 0
      (pre ++ t :: post).length = pre.length := by
    apply le_antisymm
    · by_contra hcon
      have := hlo pre.length (by omega)
      rw [hat] at this
      exact lt_irrefl _ this
    · by_contra hcon
      push_neg at hcon
      have h1 := hhi _ (le_refl _) (by omega)
      apply h1
      have h2 : (pre ++ t :: post).getD (binarySearchLoop (pre ++ t :: post) t.Id
          (pre ++ t :: post).length 0 (pre ++ t :: post).length) default ∈ pre := by
        rw [List.getD_eq_getElem _ _ (by omega), List.getElem_append_left hcon]
        exact List.getElem_mem _
      have h3 := (List.pairwise_append.mp hs).2.2 _ h2 t (List.mem_cons_self _ _)
      exact h3
  unfold findTaskIndex
  simp only [hr, hat, hlen, decide_True, Bool.true_and, cmpCompare_eq_zero_iff]

/-! ## Consequences of the lookup for the repository operations -/

theorem getD_append_cons_length (pre post : List Task) (t : Task) :
    (pre ++ t :: post).getD pre.length default = t := by
  induction pre with
  | nil => rfl
  | cons a pre ih => simpa using ih

theorem set_append_cons_length (pre post : List Task) (t u : Task) :
    (pre ++ t :: post).set pre.length u = pre ++ u :: post := by
  induction pre with
  | nil => rfl
  | cons a pre ih => simp [ih]

theorem slicesDelete_append_cons (pre post : List Task) (t : Task) :
    slicesDelete (pre ++ t :: post) pre.length (pre.length + 1) = pre ++ post := by
  unfold slicesDelete
  induction pre with
  | nil => simp
  | cons a pre ih => simp

theorem updateTaskDescription_split {pre post : List Task} {t : Task}
    (hs : StrictById (pre ++ t :: post)) (desc : GoString) (now : Time) :
    updateTaskDescription (pre ++ t :: post) t.Id desc now =
      (pre ++ ⟨t.Id, desc, t.Status, t.CreatedAt, now⟩ :: post, none) := by
  unfold updateTaskDescription
  rw [findTaskIndex_split hs]
  simp only [getD_append_cons_length, set_append_cons_length]

theorem updateTaskStatus_split {pre post : List Task} {t : Task}
    (hs : StrictById (pre ++ t :: post)) (status : Status) (now : Time) :
    updateTaskStatus (pre ++ t :: post) t.Id status now =
      (pre ++ ⟨t.Id, t.Description, status, t.CreatedAt, now⟩ :: post, none) := by
  unfold updateTaskStatus
  rw [findTaskIndex_split hs]
  simp only [getD_append_cons_length, set_append_cons_length]

theorem deleteTaskById_split {pre post : List Task} {t : Task}
    (hs : StrictById (pre ++ t :: post)) :
    deleteTaskById (pre ++ t :: post) t.Id = .ok (pre ++ post) := by
  unfold deleteTaskById
  rw [findTaskIndex_split hs]
  simp only [slicesDelete_append_cons]

theorem updateTaskDescription_absent (ts : List Task) (id : Int) (desc : GoString) (now : Time)
    (h : ∀ t ∈ ts, t.Id ≠ id) :
    updateTaskDescription ts id desc now = (ts, some errNotFound) := by
  have hf := findTaskIndex_absent ts id h
  unfold updateTaskDescription
  rcases hfi : findTaskIndex ts id with ⟨index, found⟩
  rw [hfi] at hf
  simp only at hf
  subst hf
  rfl

theorem updateTaskStatus_absent (ts : List Task) (id : Int) (status : Status) (now : Time)
    (h : ∀ t ∈ ts, t.Id ≠ id) :
    updateTaskStatus ts id status now = (ts, some errNotFound) := by
  have hf := findTaskIndex_absent ts id h
  unfold updateTaskStatus
  rcases hfi : findTaskIndex ts id with ⟨index, found⟩
  rw [hfi] at hf
  simp only at hf
  subst hf
  rfl

theorem deleteTaskById_absent (ts : List Task) (id : Int) (h : ∀ t ∈ ts, t.Id ≠ id) :
    deleteTaskById ts id = .error errNotFound := by
  have hf := findTaskIndex_absent ts id h
  unfold deleteTaskById
  rcases hfi : findTaskIndex ts id with ⟨index, found⟩
  rw [hfi] at hf
  simp only at hf
  subst hf
  rfl

/-- In a collection strictly increasing by `Id`, the tasks around the one
carrying `id` all have another id. -/
theorem strictById_split_ne {pre post : List Task} {t : Task}
    (hs : StrictById (pre ++ t :: post)) : ∀ u ∈ pre ++ post, u.Id ≠ t.Id := by
  intro u hu
  unfold StrictById at hs
  rw [List.pairwise_append] at hs
  obtain ⟨_, hpost, hcross⟩ := hs
  rcases List.mem_append.mp hu with h | h
  · exact ne_of_lt (hcross u h t (List.mem_cons_self _ _))
  · exact ne_of_gt ((List.pairwise_cons.mp hpost).1 u h)

theorem filter_ne_split {pre post : List Task} {t : Task}
    (hs : StrictById (pre ++ t :: post)) :
    (pre ++ t :: post).filter (fun u => decide (u.Id ≠ t.Id)) = pre ++ post := by
  have hne := strictById_split_ne hs
  rw [List.filter_append, List.filter_cons]
  simp only [ne_eq, not_true_eq_false, decide_False, Bool.false_eq_true, if_false]
  rw [List.filter_eq_self.mpr, List.filter_eq_self.mpr]
  · intro u hu
    simpa using hne u (List.mem_append_right _ hu)
  · intro u hu
    simpa using hne u (List.mem_append_left _ hu)

/-! ## Id allocation -/

theorem wrapInt_of_inRange (x : Int) (hlo : minInt ≤ x) (hhi : x ≤ maxInt) : wrapInt x = x := by
  unfold wrapInt
  unfold minInt at hlo
  unfold maxInt at hhi
  omega

theorem getD_length_sub_one_append (ts : List Task) (last : Task) :
    (ts ++ [last]).getD ((ts ++ [last]).length - 1) default = last := by
  simp

/-- The `add` case on a non-empty collection, written by its last task. -/
theorem addTask_append_last (ts : List Task) (last : Task) (name : GoString) (now₁ now₂ : Time) :
    addTask (ts ++ [last]) name now₁ now₂ =
      ts ++ [last] ++ [⟨wrapInt (last.Id + 1), name, todo, now₁, now₂⟩] := by
  unfold addTask
  rw [getD_length_sub_one_append]
  simp

/-- In a collection ascending by `Id`, the last task carries the largest id. -/
theorem sortedById_le_last {ts : List Task} {last : Task} (hs : SortedById (ts ++ [last])) :
    ∀ t ∈ ts ++ [last], t.Id ≤ last.Id := by
  intro t ht
  unfold SortedById at hs
  rw [List.pairwise_append] at hs
  rcases List.mem_append.mp ht with h | h
  · exact hs.2.2 t h last (List.mem_singleton_self _)
  · rw [List.mem_singleton.mp h]

theorem exists_append_last_of_ne_nil {ts : List Task} (h : ts ≠ []) :
    ∃ front last, ts = front ++ [last] :=
  ⟨ts.dropLast, ts.getLast h, (List.dropLast_append_getLast h).symm⟩

/-! ## The collection invariant -/

theorem strictById_iff_map (ts : List Task) :
    StrictById ts ↔ (ts.map Task.Id).Pairwise (fun a b => a < b) := by
  unfold StrictById
  rw [List.pairwise_map]

/-- A collection strictly increasing by `Id` has no two tasks with the same id. -/
theorem strictById_nodup {ts : List Task} (hs : StrictById ts) : (ts.map Task.Id).Nodup := by
  unfold List.Nodup
  rw [List.pairwise_map]
  exact hs.imp (fun h => ne_of_lt h)

theorem strictById_replace {pre post : List Task} {t u : Task}
    (hs : StrictById (pre ++ t :: post)) (hu : u.Id = t.Id) :
    StrictById (pre ++ u :: post) := by
  rw [strictById_iff_map] at hs ⊢
  simpa [hu] using hs

theorem strictById_remove {pre post : List Task} {t : Task}
    (hs : StrictById (pre ++ t :: post)) : StrictById (pre ++ post) := by
  unfold StrictById at hs ⊢
  refine hs.sublist ?_
  exact List.Sublist.append (List.Sublist.refl pre) (List.sublist_cons_self t post)

theorem strictById_updateTaskDescription {ts : List Task} (hs : StrictById ts) (id : Int)
    (d : GoString) (now : Time) : StrictById (updateTaskDescription ts id d now).1 := by
  by_cases hid : ∃ t ∈ ts, t.Id = id
  · obtain ⟨t, ht, rfl⟩ := hid
    obtain ⟨pre, post, rfl⟩ := List.append_of_mem ht
    rw [updateTaskDescription_split hs]
    exact strictById_replace hs rfl
  · rw [updateTaskDescription_absent ts id d now (fun t ht h => hid ⟨t, ht, h⟩)]
    exact hs

theorem strictById_updateTaskStatus {ts : List Task} (hs : StrictById ts) (id : Int)
    (s : Status) (now : Time) : StrictById (updateTaskStatus ts id s now).1 := by
  by_cases hid : ∃ t ∈ ts, t.Id = id
  · obtain ⟨t, ht, rfl⟩ := hid
    obtain ⟨pre, post, rfl⟩ := List.append_of_mem ht
    rw [updateTaskStatus_split hs]
    exact strictById_replace hs rfl
  · rw [updateTaskStatus_absent ts id s now (fun t ht h => hid ⟨t, ht, h⟩)]
    exact hs

theorem strictById_deleteTaskById {ts ts' : List Task} (hs : StrictById ts) {id : Int}
    (h : deleteTaskById ts id = .ok ts') : StrictById ts' := by
  by_cases hid : ∃ t ∈ ts, t.Id = id
  · obtain ⟨t, ht, rfl⟩ := hid
    obtain ⟨pre, post, rfl⟩ := List.append_of_mem ht
    rw [deleteTaskById_split hs] at h
    cases h
    exact strictById_remove hs
  · rw [deleteTaskById_absent ts id (fun t ht h => hid ⟨t, ht, h⟩)] at h
    cases h

/-- The `add` case on a collection ascending by `Id` with ids below the largest
`int`: the new id is the last id plus one, above every id in the collection. -/
theorem addTask_last_succ {front : List Task} {last : Task}
    (hrange : ∀ t ∈ front ++ [last], minInt ≤ t.Id ∧ t.Id < maxInt) (name : GoString)
    (now₁ now₂ : Time) :
    addTask (front ++ [last]) name now₁ now₂ =
      front ++ [last] ++ [⟨last.Id + 1, name, todo, now₁, now₂⟩] := by
  have hr := hrange last (by simp)
  have hw : wrapInt (last.Id + 1) = last.Id + 1 := by
    apply wrapInt_of_inRange
    · have := hr.1
      unfold minInt at *
      omega
    · have := hr.2
      unfold maxInt at *
      omega
  rw [addTask_append_last, hw]

theorem addTask_allocates_above {cur : List Task} (hcur : SortedById cur)
    (hrange : ∀ t ∈ cur, minInt ≤ t.Id ∧ t.Id < maxInt) {id : Int}
    (hex : ∃ t ∈ cur, id < t.Id) (name : GoString) (now₁ now₂ : Time) :
    ∃ new, addTask cur name now₁ now₂ = cur ++ [new] ∧ id < new.Id := by
  obtain ⟨u, hu, hlt⟩ := hex
  obtain ⟨front, last, rfl⟩ := exists_append_last_of_ne_nil (List.ne_nil_of_mem hu)
  have h1 : u.Id ≤ last.Id := sortedById_le_last hcur u hu
  refine ⟨⟨last.Id + 1, name, todo, now₁, now₂⟩, addTask_last_succ hrange name now₁ now₂, ?_⟩
  show id < last.Id + 1
  omega

theorem strictById_addTask {ts : List Task} (hs : StrictById ts)
    (hrange : ∀ t ∈ ts, minInt ≤ t.Id ∧ t.Id < maxInt) (name : GoString) (now₁ now₂ : Time) :
    StrictById (addTask ts name now₁ now₂) := by
  by_cases hnil : ts = []
  · subst hnil
    unfold StrictById addTask
    simp
  · obtain ⟨front, last, rfl⟩ := exists_append_last_of_ne_nil hnil
    have hle := sortedById_le_last hs.sorted
    rw [addTask_last_succ hrange]
    unfold StrictById at hs ⊢
    rw [List.pairwise_append]
    refine ⟨hs, List.pairwise_singleton _ _, ?_⟩
    intro a ha b hb
    rw [List.mem_singleton.mp hb]
    have := hle a ha
    show a.Id < last.Id + 1
    omega

/-! ## Sorting a collection that is already strictly increasing -/

theorem strictById_of_sorted_perm {l l' : List Task} (hs : SortedById l) (hp : l.Perm l')
    (hs' : StrictById l') : StrictById l := by
  have hne' : l'.Pairwise (fun a b => a.Id ≠ b.Id) := hs'.imp (fun h => ne_of_lt h)
  have hnd' : (l'.map Task.Id).Nodup := by
    unfold List.Nodup
    rw [List.pairwise_map]
    exact hne'
  have hnd : (l.map Task.Id).Nodup := (hp.map Task.Id).nodup_iff.mpr hnd'
  have hne : l.Pairwise (fun a b => a.Id ≠ b.Id) := by
    unfold List.Nodup at hnd
    rw [List.pairwise_map] at hnd
    exact hnd
  unfold StrictById
  unfold SortedById at hs
  exact (hs.and hne).imp (fun h => lt_of_le_of_ne h.1 h.2)

theorem eq_of_perm_of_strictById {l l' : List Task} (hp : l.Perm l') (hs : StrictById l)
    (hs' : StrictById l') : l = l' := by
  have anti : IsAntisymm Task (fun a b => a.Id < b.Id) :=
    ⟨fun a b h1 h2 => absurd h1 (lt_asymm h2)⟩
  exact List.eq_of_perm_of_sorted hp hs hs'

theorem map_id_of_map_key {l l' : List Task} (h : l.map Task.key = l'.map Task.storedKey) :
    l.map Task.Id = l'.map Task.Id := by
  have h' := congrArg (List.map Prod.fst) h
  simpa [List.map_map, Function.comp_def, Task.key, Task.storedKey] using h'

/-- Valid descriptions are stored as they are. -/
theorem map_storedKey_of_valid {c : List Task} (hv : ∀ t ∈ c, ValidUTF8 t.Description) :
    c.map Task.storedKey = c.map Task.key := by
  apply List.map_congr_left
  intro t ht
  have h : coerceUTF8 t.Description = t.Description := hv t ht
  simp [Task.storedKey, Task.key, h]

theorem refLib_lawful : refLib.Lawful where
  roundtrip := fun ts =>
    ⟨ts.map Task.stored, rfl, by
      simp [List.map_map, Function.comp_def, Task.key, Task.storedKey, Task.stored]⟩
  sort_perm := fun ts => List.perm_insertionSort _ ts
  sort_sorted := fun ts => by
    have total : IsTotal Task (fun a b => a.Id ≤ b.Id) := ⟨fun a b => le_total a.Id b.Id⟩
    have trans : IsTrans Task (fun a b => a.Id ≤ b.Id) :=
      ⟨fun a b c h1 h2 => le_trans h1 h2⟩
    exact List.sorted_insertionSort _ ts

/-! ## Delete -/

/-- C1: on a collection strictly increasing by Id, deleting an id that some task
carries succeeds and returns the collection with exactly that task removed: no
task of the result has the id, the length drops by one, and all other tasks are
kept unmodified in the same order. -/
theorem deleteTaskById_removes_exactly (ts : List Task) (id : Int) (hs : StrictById ts)
    (hid : ∃ t ∈ ts, t.Id = id) :
    ∃ ts', deleteTaskById ts id = .ok ts' ∧
      (∀ u ∈ ts', u.Id ≠ id) ∧
      ts'.length = ts.length - 1 ∧
      ts' = ts.filter (fun u => decide (u.Id ≠ id)) ∧
      ∃ pre t post, ts = pre ++ t :: post ∧ t.Id = id ∧ ts' = pre ++ post := by
  obtain ⟨t, ht, rfl⟩ := hid
  obtain ⟨pre, post, rfl⟩ := List.append_of_mem ht
  refine ⟨pre ++ post, deleteTaskById_split hs, strictById_split_ne hs, ?_,
    (filter_ne_split hs).symm, pre, t, post, rfl, rfl, rfl⟩
  simp

theorem deleteTaskById_removes_exactly_witness :
    ∃ ts', deleteTaskById [⟨1, "a", todo, 0, 0⟩, ⟨3, "b", done, 0, 0⟩, ⟨4, "c", todo, 0, 0⟩] 3
        = .ok ts' ∧
      (∀ u ∈ ts', u.Id ≠ 3) ∧
      ts'.length = [(⟨1, "a", todo, 0, 0⟩ : Task), ⟨3, "b", done, 0, 0⟩,
        ⟨4, "c", todo, 0, 0⟩].length - 1 ∧
      ts' = [(⟨1, "a", todo, 0, 0⟩ : Task), ⟨3, "b", done, 0, 0⟩,
        ⟨4, "c", todo, 0, 0⟩].filter (fun u => decide (u.Id ≠ 3)) ∧
      ∃ pre t post, [(⟨1, "a", todo, 0, 0⟩ : Task), ⟨3, "b", done, 0, 0⟩,
        ⟨4, "c", todo, 0, 0⟩] = pre ++ t :: post ∧ t.Id = 3 ∧ ts' = pre ++ post :=
  deleteTaskById_removes_exactly [⟨1, "a", todo, 0, 0⟩, ⟨3, "b", done, 0, 0⟩, ⟨4, "c", todo, 0, 0⟩]
    3 (by decide) ⟨⟨3, "b", done, 0, 0⟩, by decide, rfl⟩

/-! ## Not found -/

/-- C2: on a collection strictly increasing by Id, each of updateTaskDescription,
updateTaskStatus and deleteTaskById returns the not-found error exactly when no
task carries the id (and no error exactly when one does); in the error case the
updates return the collection as it was, and deleteTaskById, whose error path
writes nothing, returns no collection. -/
theorem notFound_iff_absent (ts : List Task) (id : Int) (desc : GoString) (status : Status)
    (now : Time) (hs : StrictById ts) :
    ((updateTaskDescription ts id desc now).2 = some errNotFound ↔ ∀ t ∈ ts, t.Id ≠ id) ∧
    ((updateTaskDescription ts id desc now).2 = none ↔ ∃ t ∈ ts, t.Id = id) ∧
    ((updateTaskDescription ts id desc now).2 ≠ none →
      (updateTaskDescription ts id desc now).1 = ts) ∧
    ((updateTaskStatus ts id status now).2 = some errNotFound ↔ ∀ t ∈ ts, t.Id ≠ id) ∧
    ((updateTaskStatus ts id status now).2 = none ↔ ∃ t ∈ ts, t.Id = id) ∧
    ((updateTaskStatus ts id status now).2 ≠ none →
      (updateTaskStatus ts id status now).1 = ts) ∧
    (deleteTaskById ts id = .error errNotFound ↔ ∀ t ∈ ts, t.Id ≠ id) ∧
    ((∃ ts', deleteTaskById ts id = .ok ts') ↔ ∃ t ∈ ts, t.Id = id) := by
  by_cases hid : ∃ t ∈ ts, t.Id = id
  · have habs : ¬ ∀ t ∈ ts, t.Id ≠ id := by
      push_neg
      exact hid
    obtain ⟨t, ht, rfl⟩ := hid
    obtain ⟨pre, post, rfl⟩ := List.append_of_mem ht
    have hex : ∃ u ∈ pre ++ t :: post, u.Id = t.Id := ⟨t, ht, rfl⟩
    rw [updateTaskDescription_split hs, updateTaskStatus_split hs, deleteTaskById_split hs]
    simp only [habs, hex, iff_false, iff_true, ne_eq, not_true_eq_false, false_implies,
      true_and, and_true, not_false_eq_true, reduceCtorEq, Except.ok.injEq, exists_eq']
  · have habs : ∀ t ∈ ts, t.Id ≠ id := by
      intro t ht h
      exact hid ⟨t, ht, h⟩
    rw [updateTaskDescription_absent ts id desc now habs,
      updateTaskStatus_absent ts id status now habs, deleteTaskById_absent ts id habs]
    simp only [hid, iff_false, ne_eq, reduceCtorEq, not_false_eq_true, true_and,
      implies_true, exists_false, iff_true, true_iff]
    exact ⟨habs, habs, habs, trivial⟩

theorem notFound_iff_absent_witness :
    ((updateTaskDescription [⟨1, "a", todo, 0, 0⟩, ⟨3, "b", done, 0, 0⟩] 2 "x" 9).2
        = some errNotFound ↔
      ∀ t ∈ [(⟨1, "a", todo, 0, 0⟩ : Task), ⟨3, "b", done, 0, 0⟩], t.Id ≠ 2) ∧
    (updateTaskDescription [⟨1, "a", todo, 0, 0⟩, ⟨3, "b", done, 0, 0⟩] 2 "x" 9).1
      = [⟨1, "a", todo, 0, 0⟩, ⟨3, "b", done, 0, 0⟩] ∧
    (deleteTaskById [⟨1, "a", todo, 0, 0⟩, ⟨3, "b", done, 0, 0⟩] 2 = .error errNotFound ↔
      ∀ t ∈ [(⟨1, "a", todo, 0, 0⟩ : Task), ⟨3, "b", done, 0, 0⟩], t.Id ≠ 2) :=
  have h := notFound_iff_absent [⟨1, "a", todo, 0, 0⟩, ⟨3, "b", done, 0, 0⟩] 2 "x" done 9
    (by decide)
  ⟨h.1, h.2.2.1 (by decide), h.2.2.2.2.2.2.1⟩

/-! ## Updates -/

/-- C3, as stated, fails: the new UpdatedAt is the clock reading, whatever the
stored one was. A task whose stored UpdatedAt is 10, updated when the clock
reads 5, ends with UpdatedAt 5, which is not greater than 10. -/
theorem updateTaskStatus_updatedAt_can_decrease :
    StrictById [⟨1, "a", todo, 0, 10⟩] ∧
    (∃ t ∈ [(⟨1, "a", todo, 0, 10⟩ : Task)], t.Id = 1) ∧
    updateTaskStatus [⟨1, "a", todo, 0, 10⟩] 1 done 5 = ([⟨1, "a", done, 0, 5⟩], none) ∧
    ¬ (⟨1, "a", todo, 0, 10⟩ : Task).UpdatedAt < (⟨1, "a", done, 0, 5⟩ : Task).UpdatedAt := by
  decide

/-- C3 (amended): on a collection strictly increasing by Id and an id that is
present, after updateTaskStatus with clock reading now the task with that id
has the given Status, its UpdatedAt equals now, so it is greater than the
previous UpdatedAt exactly when the previous one is earlier than now, and its
CreatedAt is unchanged. -/
theorem updateTaskStatus_sets_status_and_time (ts : List Task) (id : Int) (s : Status)
    (now : Time) (hs : StrictById ts) (hid : ∃ t ∈ ts, t.Id = id) :
    ∃ pre old new post, ts = pre ++ old :: post ∧ old.Id = id ∧
      updateTaskStatus ts id s now = (pre ++ new :: post, none) ∧
      new.Id = id ∧ new.Status = s ∧ new.UpdatedAt = now ∧
      new.CreatedAt = old.CreatedAt ∧
      (old.UpdatedAt < new.UpdatedAt ↔ old.UpdatedAt < now) := by
  obtain ⟨t, ht, rfl⟩ := hid
  obtain ⟨pre, post, rfl⟩ := List.append_of_mem ht
  exact ⟨pre, t, ⟨t.Id, t.Description, s, t.CreatedAt, now⟩, post, rfl, rfl,
    updateTaskStatus_split hs s now, rfl, rfl, rfl, rfl, Iff.rfl⟩

theorem updateTaskStatus_sets_status_and_time_witness :
    ∃ pre old new post,
      [(⟨1, "a", todo, 0, 2⟩ : Task), ⟨3, "b", todo, 1, 4⟩] = pre ++ old :: post ∧ old.Id = 3 ∧
      updateTaskStatus [⟨1, "a", todo, 0, 2⟩, ⟨3, "b", todo, 1, 4⟩] 3 done 8
        = (pre ++ new :: post, none) ∧
      new.Id = 3 ∧ new.Status = done ∧ new.UpdatedAt = 8 ∧
      new.CreatedAt = old.CreatedAt ∧
      (old.UpdatedAt < new.UpdatedAt ↔ old.UpdatedAt < 8) :=
  updateTaskStatus_sets_status_and_time [⟨1, "a", todo, 0, 2⟩, ⟨3, "b", todo, 1, 4⟩] 3 done 8
    (by decide) ⟨⟨3, "b", todo, 1, 4⟩, by decide, rfl⟩

/-- C4: on a collection strictly increasing by Id and an id that is present,
updateTaskDescription replaces the matched task by the same task with the new
Description and UpdatedAt = now, and updateTaskStatus by the same task with the
new Status and UpdatedAt = now; Id, CreatedAt and the other of Status and
Description, every other task, the length and the order are unchanged. -/
theorem update_changes_only_target_fields (ts : List Task) (id : Int) (d : GoString)
    (s : Status) (now : Time) (hs : StrictById ts) (hid : ∃ t ∈ ts, t.Id = id) :
    ∃ pre old post, ts = pre ++ old :: post ∧ old.Id = id ∧
      updateTaskDescription ts id d now =
        (pre ++ ⟨old.Id, d, old.Status, old.CreatedAt, now⟩ :: post, none) ∧
      updateTaskStatus ts id s now =
        (pre ++ ⟨old.Id, old.Description, s, old.CreatedAt, now⟩ :: post, none) ∧
      (updateTaskDescription ts id d now).1.length = ts.length ∧
      (updateTaskStatus ts id s now).1.length = ts.length := by
  obtain ⟨t, ht, rfl⟩ := hid
  obtain ⟨pre, post, rfl⟩ := List.append_of_mem ht
  refine ⟨pre, t, post, rfl, rfl, updateTaskDescription_split hs d now,
    updateTaskStatus_split hs s now, ?_, ?_⟩
  · rw [updateTaskDescription_split hs d now]
    simp
  · rw [updateTaskStatus_split hs s now]
    simp

theorem update_changes_only_target_fields_witness :
    ∃ pre old post,
      [(⟨1, "a", todo, 0, 2⟩ : Task), ⟨3, "b", done, 1, 4⟩, ⟨7, "c", todo, 5, 5⟩]
        = pre ++ old :: post ∧ old.Id = 3 ∧
      updateTaskDescription [⟨1, "a", todo, 0, 2⟩, ⟨3, "b", done, 1, 4⟩, ⟨7, "c", todo, 5, 5⟩]
          3 "new" 8 =
        (pre ++ ⟨old.Id, "new", old.Status, old.CreatedAt, 8⟩ :: post, none) ∧
      updateTaskStatus [⟨1, "a", todo, 0, 2⟩, ⟨3, "b", done, 1, 4⟩, ⟨7, "c", todo, 5, 5⟩]
          3 inprogress 8 =
        (pre ++ ⟨old.Id, old.Description, inprogress, old.CreatedAt, 8⟩ :: post, none) ∧
      (updateTaskDescription [⟨1, "a", todo, 0, 2⟩, ⟨3, "b", done, 1, 4⟩,
        ⟨7, "c", todo, 5, 5⟩] 3 "new" 8).1.length = 3 ∧
      (updateTaskStatus [⟨1, "a", todo, 0, 2⟩, ⟨3, "b", done, 1, 4⟩,
        ⟨7, "c", todo, 5, 5⟩] 3 inprogress 8).1.length = 3 :=
  update_changes_only_target_fields
    [⟨1, "a", todo, 0, 2⟩, ⟨3, "b", done, 1, 4⟩, ⟨7, "c", todo, 5, 5⟩] 3 "new" inprogress 8
    (by decide) ⟨⟨3, "b", done, 1, 4⟩, by decide, rfl⟩

/-! ## Add -/

/-- C5, as stated, fails at the top of the `int` range: when the largest Id is
the largest `int`, `Id + 1` wraps and the appended task gets the smallest
`int`, not k + 1. -/
theorem addTask_wraps_at_maxInt :
    SortedById [⟨maxInt, "a", todo, 0, 0⟩] ∧
    (∀ t ∈ [(⟨maxInt, "a", todo, 0, 0⟩ : Task)], t.Id ≤ maxInt) ∧
    addTask [⟨maxInt, "a", todo, 0, 0⟩] "x" 1 1 =
      [⟨maxInt, "a", todo, 0, 0⟩, ⟨minInt, "x", todo, 1, 1⟩] ∧
    minInt ≠ maxInt + 1 := by
  decide

/-- C5 (amended): on an empty collection the add command appends one task with
Id 1; on a collection ascending by Id whose largest Id k is an `int` below the
largest `int`, it appends one task with Id k + 1. In both cases the new task has
the given description, Status todo and the two clock readings, and the existing
tasks stay unchanged in front of it. -/
theorem addTask_appends_next_id (ts : List Task) (name : GoString) (now₁ now₂ : Time) :
    (ts = [] → addTask ts name now₁ now₂ = [⟨1, name, todo, now₁, now₂⟩]) ∧
    (∀ k : Int, SortedById ts → (∃ t ∈ ts, t.Id = k) → (∀ t ∈ ts, t.Id ≤ k) →
      minInt ≤ k → k < maxInt →
      addTask ts name now₁ now₂ = ts ++ [⟨k + 1, name, todo, now₁, now₂⟩]) := by
  constructor
  · rintro rfl
    rfl
  · rintro k hs ⟨t, ht, rfl⟩ hmax hlo hhi
    obtain ⟨front, last, rfl⟩ := exists_append_last_of_ne_nil (List.ne_nil_of_mem ht)
    have h1 : t.Id ≤ last.Id := sortedById_le_last hs t ht
    have h2 : last.Id ≤ t.Id := hmax last (by simp)
    have heq : last.Id = t.Id := le_antisymm h2 h1
    rw [addTask_append_last, heq, wrapInt_of_inRange (t.Id + 1)]
    · unfold minInt at *
      omega
    · unfold maxInt at *
      omega

theorem addTask_appends_next_id_witness :
    addTask [⟨0, "a", todo, 0, 0⟩, ⟨4, "b", done, 0, 0⟩] "x" 6 7 =
      [⟨0, "a", todo, 0, 0⟩, ⟨4, "b", done, 0, 0⟩] ++ [⟨4 + 1, "x", todo, 6, 7⟩] :=
  (addTask_appends_next_id [⟨0, "a", todo, 0, 0⟩, ⟨4, "b", done, 0, 0⟩] "x" 6 7).2 4
    (by decide) ⟨⟨4, "b", done, 0, 0⟩, by decide, rfl⟩ (by decide) (by decide) (by decide)

/-- The `add` command with the name on the command line, a storage that loads
and a file that opens for writing: the process prints nothing, exits with
status 0 and the file holds the encoding of the collection built by `addTask`. -/
theorem main_add {Bytes : Type} (lib : Lib Bytes) (st : Storage Bytes) (prog name : GoString)
    (rest : List GoString) (scans : Nat → List GoString) (clock : Nat → Time)
    (tasks : List Task) (b : Bytes)
    (hload : getTasks lib st = .ok tasks) (hdata : st.data = some b)
    (hopen : st.openErr = none) :
    main lib st (prog :: "add" :: name :: rest) scans clock =
      ⟨[], some 0,
        { st with data := some (lib.marshal (addTask tasks name (clock 0) (clock 1))) }⟩ := by
  have hname : getStringArg (prog :: str "add" :: name :: rest) 2 namePrompt (scans 0) =
      .value name [] := by
    unfold getStringArg
    simp
  simp only [main, hload, if_true, hname, saveAndReturn, saveTasks, hdata, hopen,
    List.nil_append]

/-- C6, as stated, fails: ids of deleted tasks are not remembered. Deleting the
task with the largest Id, 3, and adding right after allocates 3 again; and after
deleting 2 and then 3 from ids 1, 2, 3 the next add allocates 2 again. -/
theorem add_after_delete_reuses_last_id :
    StrictById [⟨1, "a", todo, 0, 0⟩, ⟨2, "b", todo, 0, 0⟩, ⟨3, "c", todo, 0, 0⟩] ∧
    deleteTaskById [⟨1, "a", todo, 0, 0⟩, ⟨2, "b", todo, 0, 0⟩, ⟨3, "c", todo, 0, 0⟩] 3 =
      .ok [⟨1, "a", todo, 0, 0⟩, ⟨2, "b", todo, 0, 0⟩] ∧
    addTask [⟨1, "a", todo, 0, 0⟩, ⟨2, "b", todo, 0, 0⟩] "new" 9 9 =
      [⟨1, "a", todo, 0, 0⟩, ⟨2, "b", todo, 0, 0⟩, ⟨3, "new", todo, 9, 9⟩] ∧
    deleteTaskById [⟨1, "a", todo, 0, 0⟩, ⟨2, "b", todo, 0, 0⟩, ⟨3, "c", todo, 0, 0⟩] 2 =
      .ok [⟨1, "a", todo, 0, 0⟩, ⟨3, "c", todo, 0, 0⟩] ∧
    deleteTaskById [⟨1, "a", todo, 0, 0⟩, ⟨3, "c", todo, 0, 0⟩] 3 =
      .ok [⟨1, "a", todo, 0, 0⟩] ∧
    addTask [⟨1, "a", todo, 0, 0⟩] "new" 9 9 =
      [⟨1, "a", todo, 0, 0⟩, ⟨2, "new", todo, 9, 9⟩] := by
  refine ⟨by decide, rfl, by decide, rfl, rfl, by decide⟩

/-- C6 (amended): an id is not allocated again while a task with a larger Id
remains. On a collection strictly increasing by Id whose Ids are `int`s below
the largest `int`, deleting a present id that is not the largest leaves a task
with a larger Id, and the add command run right after allocates an Id greater
than id; more generally, on every collection ascending by Id that holds a task
with an Id above id and whose Ids are `int`s below the largest `int`, the add
command allocates an Id greater than id. -/
theorem add_allocates_above_deleted_id (ts : List Task) (id : Int) (hs : StrictById ts)
    (hid : ∃ t ∈ ts, t.Id = id) :
    ∃ ts', deleteTaskById ts id = .ok ts' ∧
      ((∃ t ∈ ts, id < t.Id) → (∀ t ∈ ts, minInt ≤ t.Id ∧ t.Id < maxInt) →
        (∃ t ∈ ts', id < t.Id) ∧
        ∀ (name : GoString) (now₁ now₂ : Time),
          ∃ new, addTask ts' name now₁ now₂ = ts' ++ [new] ∧ id < new.Id ∧ new.Id ≠ id) ∧
      ∀ (cur : List Task) (name : GoString) (now₁ now₂ : Time), SortedById cur →
        (∃ t ∈ cur, id < t.Id) → (∀ t ∈ cur, minInt ≤ t.Id ∧ t.Id < maxInt) →
        ∃ new, addTask cur name now₁ now₂ = cur ++ [new] ∧ id < new.Id ∧ new.Id ≠ id := by
  obtain ⟨t, ht, rfl⟩ := hid
  obtain ⟨pre, post, rfl⟩ := List.append_of_mem ht
  refine ⟨pre ++ post, deleteTaskById_split hs, ?_, ?_⟩
  · rintro ⟨u, hu, hlt⟩ hrange
    have hrem : ∃ v ∈ pre ++ post, t.Id < v.Id := by
      refine ⟨u, ?_, hlt⟩
      rcases List.mem_append.mp hu with h | h
      · exact List.mem_append_left _ h
      · rcases List.mem_cons.mp h with h | h
        · subst h
          exact absurd hlt (lt_irrefl _)
        · exact List.mem_append_right _ h
    have hrange' : ∀ v ∈ pre ++ post, minInt ≤ v.Id ∧ v.Id < maxInt := by
      intro v hv
      apply hrange
      rcases List.mem_append.mp hv with h | h
      · exact List.mem_append_left _ h
      · exact List.mem_append_right _ (List.mem_cons_of_mem _ h)
    refine ⟨hrem, fun name now₁ now₂ => ?_⟩
    obtain ⟨new, hadd, hgt⟩ :=
      addTask_allocates_above (strictById_remove hs).sorted hrange' hrem name now₁ now₂
    exact ⟨new, hadd, hgt, ne_of_gt hgt⟩
  · intro cur name now₁ now₂ hcur hex hrange
    obtain ⟨new, hadd, hgt⟩ := addTask_allocates_above hcur hrange hex name now₁ now₂
    exact ⟨new, hadd, hgt, ne_of_gt hgt⟩

theorem add_allocates_above_deleted_id_witness :
    ∃ ts', deleteTaskById [⟨0, "a", todo, 0, 0⟩, ⟨3, "b", todo, 0, 0⟩, ⟨4, "c", todo, 0, 0⟩] 3
        = .ok ts' ∧
      ((∃ t ∈ ts', 3 < t.Id) ∧
        ∀ (name : GoString) (now₁ now₂ : Time),
          ∃ new, addTask ts' name now₁ now₂ = ts' ++ [new] ∧ 3 < new.Id ∧ new.Id ≠ 3) ∧
      ∃ new, addTask [⟨0, "a", todo, 0, 0⟩, ⟨7, "c", todo, 0, 0⟩] "x" 1 1 =
        [⟨0, "a", todo, 0, 0⟩, ⟨7, "c", todo, 0, 0⟩] ++ [new] ∧ 3 < new.Id ∧ new.Id ≠ 3 :=
  match add_allocates_above_deleted_id
    [⟨0, "a", todo, 0, 0⟩, ⟨3, "b", todo, 0, 0⟩, ⟨4, "c", todo, 0, 0⟩] 3 (by decide)
    ⟨⟨3, "b", todo, 0, 0⟩, by decide, rfl⟩ with
  | ⟨ts', hdel, hnext, hany⟩ =>
    ⟨ts', hdel, hnext ⟨⟨4, "c", todo, 0, 0⟩, by decide, by decide⟩ (by decide),
      hany [⟨0, "a", todo, 0, 0⟩, ⟨7, "c", todo, 0, 0⟩] "x" 1 1 (by decide)
        ⟨⟨7, "c", todo, 0, 0⟩, by decide, by decide⟩ (by decide)⟩

/-! ## Invariant preservation -/

/-- C10, as stated, fails at the top of the `int` range: appending to a
collection whose last Id is the largest `int` wraps to the smallest `int` and
the result is no longer increasing. -/
theorem addTask_breaks_order_at_maxInt :
    StrictById [⟨maxInt, "a", todo, 0, 0⟩] ∧
    ¬ StrictById (addTask [⟨maxInt, "a", todo, 0, 0⟩] "x" 1 1) := by
  decide

/-- C10 (amended): a collection strictly increasing by Id has no two tasks with
the same Id, and the collection after updateTaskDescription, after
updateTaskStatus and the one returned by a successful deleteTaskById are again
strictly increasing by Id; so is the collection after the add command's append
when every Id is an `int` below the largest `int`. -/
theorem operations_preserve_strictById (ts : List Task) (hs : StrictById ts) (id : Int)
    (d : GoString) (s : Status) (now : Time) (name : GoString) (now₁ now₂ : Time) :
    (ts.map Task.Id).Nodup ∧
    StrictById (updateTaskDescription ts id d now).1 ∧
    StrictById (updateTaskStatus ts id s now).1 ∧
    (∀ ts', deleteTaskById ts id = .ok ts' → StrictById ts') ∧
    ((∀ t ∈ ts, minInt ≤ t.Id ∧ t.Id < maxInt) → StrictById (addTask ts name now₁ now₂)) :=
  ⟨strictById_nodup hs, strictById_updateTaskDescription hs id d now,
    strictById_updateTaskStatus hs id s now, fun _ h => strictById_deleteTaskById hs h,
    fun hr => strictById_addTask hs hr name now₁ now₂⟩

theorem operations_preserve_strictById_witness :
    StrictById (updateTaskDescription [⟨1, "a", todo, 0, 0⟩, ⟨3, "b", done, 0, 0⟩] 3 "x" 5).1 ∧
    StrictById (updateTaskStatus [⟨1, "a", todo, 0, 0⟩, ⟨3, "b", done, 0, 0⟩] 3 todo 5).1 ∧
    StrictById [⟨1, "a", todo, 0, 0⟩] ∧
    StrictById (addTask [⟨1, "a", todo, 0, 0⟩, ⟨3, "b", done, 0, 0⟩] "n" 6 6) :=
  have h := operations_preserve_strictById [⟨1, "a", todo, 0, 0⟩, ⟨3, "b", done, 0, 0⟩]
    (by decide) 3 "x" todo 5 "n" 6 6
  ⟨h.2.1, h.2.2.1, h.2.2.2.1 [⟨1, "a", todo, 0, 0⟩] rfl, h.2.2.2.2 (by decide)⟩

/-! ## List -/

/-- With no filter argument every task is printed, in collection order; with
the filter `in-progress` or `done` exactly the tasks of that status are; with
the filter `todo` every task is printed, as with no filter. -/
theorem listTasks_filter (tasks : List Task) :
    listTasks tasks [] = tasks ∧
    listTasks tasks ["in-progress"] = tasks.filter (fun t => decide (t.Status = inprogress)) ∧
    listTasks tasks ["done"] = tasks.filter (fun t => decide (t.Status = done)) ∧
    listTasks tasks ["todo"] = tasks := by
  refine ⟨?_, ?_, ?_, ?_⟩
  · unfold listTasks
    simp
  · unfold listTasks
    have h : strStatuses "in-progress" = inprogress := by decide
    have h' : inprogress ≠ 0 := by decide
    simp [h, h']
  · unfold listTasks
    have h : strStatuses "done" = done := by decide
    have h' : done ≠ 0 := by decide
    simp [h, h']
  · unfold listTasks
    have h : strStatuses "todo" = 0 := by decide
    simp [h]

/-- C7 fails on the code for the filter `todo`: its value is 0, the value the
loop takes for "no filter", so `list todo` prints every task, the done one
included. -/
theorem list_todo_prints_every_task :
    listTasks [⟨1, "a", todo, 0, 0⟩, ⟨2, "b", done, 0, 0⟩] ["todo"] =
      [⟨1, "a", todo, 0, 0⟩, ⟨2, "b", done, 0, 0⟩] ∧
    (main refLib ⟨some (some [⟨1, "a", todo, 0, 0⟩, ⟨2, "b", done, 0, 0⟩]), none, none⟩
      ["task-cli", "list", "todo"] (fun _ => []) (fun _ => 0)).out =
      [.taskLine 1 "a" "todo" 0 0, .taskLine 2 "b" "done" 0 0] := by
  decide

/-! ## Store round trip -/

/-- C8, as stated, fails in two ways. (1) The file exists and opens for writing
but cannot be read: saveTasks writes the collection and getTasks then returns
the read error. (2) A description holds the byte FF, which is not valid UTF-8:
the JSON encoding stores the replacement character U+FFFD in its place, and the
collection loaded back, though strictly increasing by Id as the one saved,
maps Id 1 to another description. -/
theorem save_then_load_not_faithful :
    (∃ st', saveTasks refLib ⟨some none, some "permission denied", none⟩
        [⟨1, "a", todo, 0, 0⟩] = .ok st' ∧
      getTasks refLib st' = .error "permission denied") ∧
    (StrictById [⟨1, [0x61, 0xFF, 0x62], todo, 0, 0⟩] ∧
      ∃ st', saveTasks refLib ⟨some none, none, none⟩
          [⟨1, [0x61, 0xFF, 0x62], todo, 0, 0⟩] = .ok st' ∧
        getTasks refLib st' = .ok [⟨1, [0x61, 0xEF, 0xBF, 0xBD, 0x62], todo, 0, 0⟩] ∧
        [(⟨1, [0x61, 0xEF, 0xBF, 0xBD, 0x62], todo, 0, 0⟩ : Task)].map Task.key ≠
          [(⟨1, [0x61, 0xFF, 0x62], todo, 0, 0⟩ : Task)].map Task.key) :=
  ⟨⟨_, rfl, rfl⟩, by decide, _, rfl, rfl, by decide⟩

/-- C8 (amended): a collection written by saveTasks to an existing file that
opens for writing, and read back by getTasks from a file that can be read,
loads successfully; the loaded collection is ascending by Id and holds exactly
the (Id, Description, Status) triples of the saved one with every description
coerced to valid UTF-8, in the same order when the saved collection was
strictly increasing by Id; so it holds the very same triples when every
description is valid UTF-8. Status is the integer of the constant block,
0 = todo, 1 = in-progress, 2 = done. -/
theorem save_then_load {Bytes : Type} (lib : Lib Bytes) (hl : lib.Lawful) (st : Storage Bytes)
    (c : List Task) (hexists : st.data ≠ none) (hopen : st.openErr = none)
    (hread : st.readErr = none) :
    ∃ st', saveTasks lib st c = .ok st' ∧
      ∃ loaded, getTasks lib st' = .ok loaded ∧
        SortedById loaded ∧
        (loaded.map Task.key).Perm (c.map Task.storedKey) ∧
        (StrictById c → loaded.map Task.key = c.map Task.storedKey) ∧
        ((∀ t ∈ c, ValidUTF8 t.Description) →
          (loaded.map Task.key).Perm (c.map Task.key) ∧
          (StrictById c → loaded.map Task.key = c.map Task.key)) := by
  obtain ⟨b, hb⟩ := Option.ne_none_iff_exists'.mp hexists
  obtain ⟨ts', hdec, hkey⟩ := hl.roundtrip c
  have hperm : ((lib.sortById ts').map Task.key).Perm (c.map Task.storedKey) := by
    rw [← hkey]
    exact (hl.sort_perm ts').map Task.key
  have hstrict : StrictById c → (lib.sortById ts').map Task.key = c.map Task.storedKey := by
    intro hc
    have hts' : StrictById ts' := by
      rw [strictById_iff_map, map_id_of_map_key hkey, ← strictById_iff_map]
      exact hc
    have hsorted := strictById_of_sorted_perm (hl.sort_sorted ts') (hl.sort_perm ts') hts'
    rw [eq_of_perm_of_strictById (hl.sort_perm ts') hsorted hts', hkey]
  refine ⟨{ st with data := some (lib.marshal c) }, ?_, lib.sortById ts', ?_,
    hl.sort_sorted ts', hperm, hstrict, ?_⟩
  · unfold saveTasks
    rw [hb, hopen]
  · unfold getTasks
    simp only [hread, hdec]
  · intro hv
    rw [← map_storedKey_of_valid hv]
    exact ⟨hperm, hstrict⟩

theorem save_then_load_witness :
    (∃ st', saveTasks refLib ⟨some none, none, none⟩
        [⟨4, "b", done, 1, 2⟩, ⟨1, "a", todo, 0, 0⟩] = .ok st' ∧
      ∃ loaded, getTasks refLib st' = .ok loaded ∧ SortedById loaded ∧
        (loaded.map Task.key).Perm
          ([(⟨4, "b", done, 1, 2⟩ : Task), ⟨1, "a", todo, 0, 0⟩].map Task.key)) ∧
    (∃ st', saveTasks refLib ⟨some none, none, none⟩
        [⟨1, "a", todo, 0, 0⟩, ⟨4, "b", done, 1, 2⟩] = .ok st' ∧
      ∃ loaded, getTasks refLib st' = .ok loaded ∧
        loaded.map Task.key =
          [(⟨1, "a", todo, 0, 0⟩ : Task), ⟨4, "b", done, 1, 2⟩].map Task.key) :=
  ⟨match save_then_load refLib refLib_lawful ⟨some none, none, none⟩
      [⟨4, "b", done, 1, 2⟩, ⟨1, "a", todo, 0, 0⟩] (by decide) rfl rfl with
    | ⟨st', hsave, loaded, hload, hsorted, _, _, hvalid⟩ =>
      ⟨st', hsave, loaded, hload, hsorted, (hvalid (by decide)).1⟩,
    match save_then_load refLib refLib_lawful ⟨some none, none, none⟩
      [⟨1, "a", todo, 0, 0⟩, ⟨4, "b", done, 1, 2⟩] (by decide) rfl rfl with
    | ⟨st', hsave, loaded, hload, _, _, _, hvalid⟩ =>
      ⟨st', hsave, loaded, hload, (hvalid (by decide)).2 (by decide)⟩⟩

/-! ## Errors in the dispatcher -/

/-- C9, as stated, fails in three runs. (1) The storage does not decode: `add`
prints the error, goes on with an empty collection, overwrites the file and
exits with status 0. (2) The id argument `abc` is not numeric: `update` takes
it as id 0, updates that task, writes the file and exits with status 0.
(3) The collection is empty, so the id 5 is absent: `delete 5` prints
"No tasks, nothing to do" and exits with status 0. -/
theorem errors_not_always_terminal :
    (getTasks refLib ⟨some none, none, none⟩ = .error "invalid character" ∧
      (main refLib ⟨some none, none, none⟩ ["task-cli", "add", "x"] (fun _ => [])
        (fun _ => 7)).out = [.text "Error: invalid character"] ∧
      (main refLib ⟨some none, none, none⟩ ["task-cli", "add", "x"] (fun _ => [])
        (fun _ => 7)).exit = some 0 ∧
      (main refLib ⟨some none, none, none⟩ ["task-cli", "add", "x"] (fun _ => [])
        (fun _ => 7)).storage.data = some (some [⟨1, "x", todo, 7, 7⟩])) ∧
    (atoi "abc" = (0, some .invalid) ∧
      (main refLib ⟨some (some [⟨0, "a", todo, 1, 1⟩]), none, none⟩
        ["task-cli", "update", "abc", "x"] (fun _ => []) (fun _ => 7)).out = [] ∧
      (main refLib ⟨some (some [⟨0, "a", todo, 1, 1⟩]), none, none⟩
        ["task-cli", "update", "abc", "x"] (fun _ => []) (fun _ => 7)).exit = some 0 ∧
      (main refLib ⟨some (some [⟨0, "a", todo, 1, 1⟩]), none, none⟩
        ["task-cli", "update", "abc", "x"] (fun _ => []) (fun _ => 7)).storage.data =
        some (some [⟨0, "x", todo, 1, 7⟩])) ∧
    (getTasks refLib ⟨some (some []), none, none⟩ = .ok [] ∧
      (main refLib ⟨some (some []), none, none⟩ ["task-cli", "delete", "5"] (fun _ => [])
        (fun _ => 7)).out = [.text noTasksMessage] ∧
      (main refLib ⟨some (some []), none, none⟩ ["task-cli", "delete", "5"] (fun _ => [])
        (fun _ => 7)).exit = some 0) := by
  refine ⟨⟨rfl, by decide, by decide, by decide⟩, ⟨by decide, by decide, by decide, by decide⟩,
    ⟨rfl, by decide, by decide⟩⟩

theorem exitIfNotExists_of_ne_nil {tasks : List Task} (hne : tasks ≠ []) :
    exitIfNotExists tasks = none := by
  unfold exitIfNotExists
  rw [if_neg (fun h => hne (List.length_eq_zero.mp h))]

theorem main_update_absent {Bytes : Type} (lib : Lib Bytes) (st : Storage Bytes)
    (prog : GoString) (args : List GoString) (scans : Nat → List GoString)
    (clock : Nat → Time) (tasks : List Task) (id : Int) (o : List Output)
    (hload : getTasks lib st = .ok tasks) (hne : tasks ≠ [])
    (hid : getIntArg (prog :: str "update" :: args) 2 idPrompt true (scans 0) = .value id o)
    (hdesc : ∃ d o', getStringArg (prog :: str "update" :: args) 3 descriptionPrompt (scans 1)
      = .value d o')
    (habs : ∀ t ∈ tasks, t.Id ≠ id) :
    ∃ out, main lib st (prog :: str "update" :: args) scans clock =
      ⟨out ++ [.text errNotFound], some 1, st⟩ := by
  obtain ⟨d, o', hd⟩ := hdesc
  have hlen := exitIfNotExists_of_ne_nil hne
  refine ⟨o ++ o', ?_⟩
  have h1 : ¬ (str "update" = str "add") := by decide
  simp only [main, hload, h1, if_false, if_true, hlen, hid, hd,
    updateTaskDescription_absent tasks id d (clock 0) habs, List.nil_append]

theorem main_mark_absent {Bytes : Type} (lib : Lib Bytes) (st : Storage Bytes)
    (prog action : GoString) (args : List GoString) (scans : Nat → List GoString)
    (clock : Nat → Time) (tasks : List Task) (id : Int) (o : List Output)
    (hact : action = str "mark-in-progress" ∨ action = str "mark-done")
    (hload : getTasks lib st = .ok tasks) (hne : tasks ≠ [])
    (hid : getIntArg (prog :: action :: args) 2 idPrompt true (scans 0) = .value id o)
    (habs : ∀ t ∈ tasks, t.Id ≠ id) :
    ∃ out, main lib st (prog :: action :: args) scans clock =
      ⟨out ++ [.text errNotFound], some 1, st⟩ := by
  have hlen := exitIfNotExists_of_ne_nil hne
  refine ⟨o, ?_⟩
  have h1 : ¬ (action = str "add") := by rcases hact with rfl | rfl <;> decide
  have h2 : ¬ (action = str "update") := by rcases hact with rfl | rfl <;> decide
  simp only [main, hload, h1, h2, hact, if_false, if_true, hlen, hid,
    updateTaskStatus_absent tasks id _ (clock 0) habs, List.nil_append]

theorem main_delete_absent {Bytes : Type} (lib : Lib Bytes) (st : Storage Bytes)
    (prog : GoString) (args : List GoString) (scans : Nat → List GoString)
    (clock : Nat → Time) (tasks : List Task) (id : Int) (o : List Output)
    (hload : getTasks lib st = .ok tasks) (hne : tasks ≠ [])
    (hid : getIntArg (prog :: str "delete" :: args) 2 idPrompt true (scans 0) = .value id o)
    (habs : ∀ t ∈ tasks, t.Id ≠ id) :
    ∃ out, main lib st (prog :: str "delete" :: args) scans clock =
      ⟨out ++ [.text errNotFound], some 1, st⟩ := by
  have hlen := exitIfNotExists_of_ne_nil hne
  refine ⟨o, ?_⟩
  have h1 : ¬ (str "delete" = str "add") := by decide
  have h2 : ¬ (str "delete" = str "update") := by decide
  have h3 : ¬ (str "delete" = str "mark-in-progress" ∨ str "delete" = str "mark-done") := by
    decide
  simp only [main, hload, h1, h2, h3, if_false, if_true, hlen, hid,
    deleteTaskById_absent tasks id habs, List.nil_append]

theorem main_empty_collection {Bytes : Type} (lib : Lib Bytes) (st : Storage Bytes)
    (prog action : GoString) (args : List GoString) (scans : Nat → List GoString)
    (clock : Nat → Time)
    (hact : action = str "update" ∨ action = str "mark-in-progress" ∨
      action = str "mark-done" ∨ action = str "delete")
    (hload : getTasks lib st = .ok []) :
    main lib st (prog :: action :: args) scans clock =
      ⟨[.text noTasksMessage], some 0, st⟩ := by
  have hex : exitIfNotExists [] = some ([.text noTasksMessage], 0) := rfl
  rcases hact with rfl | rfl | rfl | rfl
  · have h1 : ¬ (str "update" = str "add") := by decide
    simp only [main, hload, h1, if_false, if_true, hex, List.nil_append]
  · have h1 : ¬ (str "mark-in-progress" = str "add") := by decide
    have h2 : ¬ (str "mark-in-progress" = str "update") := by decide
    simp only [main, hload, h1, h2, if_false, if_true, hex, List.nil_append,
      true_or]
  · have h1 : ¬ (str "mark-done" = str "add") := by decide
    have h2 : ¬ (str "mark-done" = str "update") := by decide
    simp only [main, hload, h1, h2, if_false, if_true, hex, List.nil_append,
      or_true]
  · have h1 : ¬ (str "delete" = str "add") := by decide
    have h2 : ¬ (str "delete" = str "update") := by decide
    have h3 : ¬ (str "delete" = str "mark-in-progress" ∨ str "delete" = str "mark-done") := by
      decide
    simp only [main, hload, h1, h2, h3, if_false, if_true, hex, List.nil_append]

/-- C9 (amended): in a run of update, mark-in-progress, mark-done or delete whose
storage loads successfully: when the loaded collection is empty the process
prints "No tasks, nothing to do" and exits with status 0, the file untouched;
when it is not empty, every id given as an argument is numeric, the id that
getIntArg returns (from the argument, or from the texts of its own scanner) is
carried by no task and, for update, getStringArg returns a description (from
the argument, or from the texts of its own scanner), the process prints
"Task index not found" last, exits with status 1 and leaves the storage file
as it was. -/
theorem absent_id_run_is_terminal {Bytes : Type} (lib : Lib Bytes) (st : Storage Bytes)
    (prog action : GoString) (args : List GoString) (scans : Nat → List GoString)
    (clock : Nat → Time)
    (hact : action = str "update" ∨ action = str "mark-in-progress" ∨
      action = str "mark-done" ∨ action = str "delete") :
    (getTasks lib st = .ok [] →
      main lib st (prog :: action :: args) scans clock =
        ⟨[.text noTasksMessage], some 0, st⟩) ∧
    (∀ (tasks : List Task) (id : Int) (o : List Output),
      getTasks lib st = .ok tasks → tasks ≠ [] →
      (∀ a, args.head? = some a → (atoi a).2 = none) →
      getIntArg (prog :: action :: args) 2 idPrompt true (scans 0) = .value id o →
      (action = str "update" → ∃ d o',
        getStringArg (prog :: action :: args) 3 descriptionPrompt (scans 1) = .value d o') →
      (∀ t ∈ tasks, t.Id ≠ id) →
      ∃ out, main lib st (prog :: action :: args) scans clock =
        ⟨out ++ [.text errNotFound], some 1, st⟩) := by
  refine ⟨main_empty_collection lib st prog action args scans clock hact, ?_⟩
  intro tasks id o hload hne _ hid hdesc habs
  rcases hact with rfl | h | h | rfl
  · exact main_update_absent lib st prog args scans clock tasks id o hload hne hid
      (hdesc rfl) habs
  · exact main_mark_absent lib st prog action args scans clock tasks id o (Or.inl h)
      hload hne hid habs
  · exact main_mark_absent lib st prog action args scans clock tasks id o (Or.inr h)
      hload hne hid habs
  · exact main_delete_absent lib st prog args scans clock tasks id o hload hne hid habs

theorem absent_id_run_is_terminal_witness :
    main refLib ⟨some (some []), none, none⟩ ["task-cli", "delete", "5"] (fun _ => [])
        (fun _ => 7) =
      ⟨[.text noTasksMessage], some 0, ⟨some (some []), none, none⟩⟩ ∧
    (∃ out, main refLib ⟨some (some [⟨1, "a", todo, 0, 0⟩, ⟨2, "b", todo, 0, 0⟩]), none, none⟩
        ["task-cli", "update", "5", "x"] (fun _ => []) (fun _ => 7) =
      ⟨out ++ [.text errNotFound], some 1,
        ⟨some (some [⟨1, "a", todo, 0, 0⟩, ⟨2, "b", todo, 0, 0⟩]), none, none⟩⟩) ∧
    ∃ out, main refLib ⟨some (some [⟨1, "a", todo, 0, 0⟩, ⟨2, "b", todo, 0, 0⟩]), none, none⟩
        ["task-cli", "update"] (fun k => if k = 0 then ["x", "5"] else ["new name"])
        (fun _ => 7) =
      ⟨out ++ [.text errNotFound], some 1,
        ⟨some (some [⟨1, "a", todo, 0, 0⟩, ⟨2, "b", todo, 0, 0⟩]), none, none⟩⟩ :=
  ⟨(absent_id_run_is_terminal refLib ⟨some (some []), none, none⟩ "task-cli" "delete" ["5"]
      (fun _ => []) (fun _ => 7) (by decide)).1 rfl,
    (absent_id_run_is_terminal refLib
      ⟨some (some [⟨1, "a", todo, 0, 0⟩, ⟨2, "b", todo, 0, 0⟩]), none, none⟩ "task-cli" "update"
      ["5", "x"] (fun _ => []) (fun _ => 7) (by decide)).2
      [⟨1, "a", todo, 0, 0⟩, ⟨2, "b", todo, 0, 0⟩] 5 [] rfl (by decide) (by decide) (by decide)
      (fun _ => ⟨"x", [], by decide⟩) (by decide),
    (absent_id_run_is_terminal refLib
      ⟨some (some [⟨1, "a", todo, 0, 0⟩, ⟨2, "b", todo, 0, 0⟩]), none, none⟩ "task-cli" "update"
      [] (fun k => if k = 0 then ["x", "5"] else ["new name"]) (fun _ => 7) (by decide)).2
      [⟨1, "a", todo, 0, 0⟩, ⟨2, "b", todo, 0, 0⟩] 5
      [.text idPrompt, .text invalidIdMessage] rfl (by decide) (by decide) (by decide)
      (fun _ => ⟨"new name", [.text descriptionPrompt], by decide⟩) (by decide)⟩

end TaskTracker
